import Mathlib

/-!
Shallow embedding of the `nlp` package's TF-IDF transformer
(`TfidfTransformer` with `Fit`, `Transform`, `FitTransform`, `Save`, `Load`)
together with theorems checking the package's specification.

Matrix values (`float64` in the source) are modelled by the real numbers, so
the arithmetic facts proved here are the exact-arithmetic counterparts of the
floating-point computations.
-/

namespace Nlp

/-- Model of `sparse.DIA` as the package uses it: a square diagonal matrix of
dimension `size` whose diagonal values are `weights` (built by
`sparse.NewDIA(m, m, weights)`). -/
structure DIA where
  size : Nat
  weights : List ℝ

/-- Model of `sparse.CSR` by its per-row contents: `data` has one list per
matrix row, holding that row's entries in column order.  A canonical CSR
stores exactly the non-zero entries of each row, so the stored-entry count of
row `i` (`Indptr[i+1] - Indptr[i]`) equals the number of non-zero values in
`data[i]`, and iterating the stored segment of row `i` visits exactly the
non-zero values of `data[i]`. -/
structure CSR where
  rows : Nat
  cols : Nat
  data : List (List ℝ)

/-- Well-formedness of the contents model: `data` has `rows` rows, each of
length `cols`. -/
def CSR.Wf (m : CSR) : Prop :=
  m.data.length = m.rows ∧ ∀ r ∈ m.data, r.length = m.cols

/-- Element access `m.At(i, j)` (entries outside the stored contents read 0,
matching sparse semantics). -/
noncomputable def CSR.At (m : CSR) (i j : Nat) : ℝ :=
  (m.data.getD i []).getD j 0

/-- Model of `csr.RowNNZ(i)`: the stored-entry count of row `i`, which for a
canonical CSR is the number of non-zero entries of that row. -/
noncomputable def CSR.RowNNZ (m : CSR) (i : Nat) : Nat :=
  (m.data.getD i []).countP fun x => decide (x ≠ 0)

/-- Contents of the transposition round trip
`m.T().(*sparse.CSC).ToCSR()` used by column normalization: a fresh CSR
holding the transposed contents. -/
noncomputable def CSR.transpose (m : CSR) : CSR :=
  ⟨m.cols, m.rows,
    (List.range m.cols).map fun j => (List.range m.rows).map fun i => m.At i j⟩

/-- A canonical CSR built from dimensions and an entry function (the contents
produced by a `sparse.TypeConverter`'s `ToCSR` for a matrix with those
entries). -/
noncomputable def csrOfFn (rows cols : Nat) (f : Nat → Nat → ℝ) : CSR :=
  ⟨rows, cols, (List.range rows).map fun i => (List.range cols).map fun j => f i j⟩

/-- Model of the `mat.Matrix` values reaching this package:
`generic` is a matrix implementing neither `sparse.TypeConverter` nor
`*sparse.CSR`, accessed through `At` and `Dims`; `convertible` is a
`sparse.TypeConverter` whose `ToCSR` holds the same contents; `csr` is a
`*sparse.CSR` (itself a `TypeConverter` whose `ToCSR` returns the
receiver). -/
inductive GoMat where
  | generic (rows cols : Nat) (f : Nat → Nat → ℝ)
  | convertible (rows cols : Nat) (f : Nat → Nat → ℝ)
  | csr (c : CSR)

/-- Model of the prologue shared by `Fit`, `Transform` and `FitTransform`:
`if t, ok := matrix.(sparse.TypeConverter); ok { matrix = t.ToCSR() }`. -/
noncomputable def coerceCSR : GoMat → GoMat
  | .generic r c f => .generic r c f
  | .convertible r c f => .csr (csrOfFn r c f)
  | .csr c => .csr c

/-- Row dimension reported by `matrix.Dims()`. -/
def GoMat.rows : GoMat → Nat
  | .generic r _ _ => r
  | .convertible r _ _ => r
  | .csr c => c.rows

/-- Column dimension reported by `matrix.Dims()`. -/
def GoMat.cols : GoMat → Nat
  | .generic _ c _ => c
  | .convertible _ c _ => c
  | .csr c => c.cols

/-- Element access `matrix.At(i, j)`. -/
noncomputable def GoMat.At : GoMat → Nat → Nat → ℝ
  | .generic _ _ f => f
  | .convertible _ _ f => f
  | .csr c => c.At

/-- Well-formedness of an input matrix: a `*sparse.CSR` input must carry
well-formed contents; the function-backed forms always are. -/
def GoMat.Wf : GoMat → Prop
  | .csr c => c.Wf
  | _ => True

/-- Document frequency of term row `i` as the specification defines it: the
number of document columns `j < cols` whose entry in row `i` is non-zero. -/
noncomputable def GoMat.df (M : GoMat) (i : Nat) : Nat :=
  (List.range M.cols).countP fun j => decide (M.At i j ≠ 0)

/-- Model of the fallback document-frequency loop of `Fit`: scan the `n`
columns of row `i`, incrementing the counter at every non-zero cell. -/
noncomputable def dfLoop (f : Nat → Nat → ℝ) (i n : Nat) : Nat :=
  (List.range n).foldl (fun df j => if f i j ≠ 0 then df + 1 else df) 0

/-- The `NoL2Normalization` constant (first value of the iota block). -/
def NoL2Normalization : Nat := 0

/-- The `RowBasedL2Normalization` constant. -/
def RowBasedL2Normalization : Nat := 1

/-- The `ColBasedL2Normalization` constant. -/
def ColBasedL2Normalization : Nat := 2

/-- Model of the `TfidfTransformer` struct: the fitted diagonal model (`nil`
before any `Fit`/`Load`), the weight padding, and the normalization mode. -/
structure TfidfTransformer where
  transform : Option DIA
  weightPadding : ℝ
  l2Normalization : Nat

/-- Model of `NewTfidfTransformer()`: the zero value of the struct. -/
noncomputable def NewTfidfTransformer : TfidfTransformer :=
  ⟨none, 0, NoL2Normalization⟩

/-- Model of `GetWeightPadding`. -/
noncomputable def TfidfTransformer.GetWeightPadding (t : TfidfTransformer) : ℝ :=
  t.weightPadding

/-- Model of `SetWeightPadding` in state-passing style. -/
noncomputable def TfidfTransformer.SetWeightPadding (t : TfidfTransformer) (wp : ℝ) :
    TfidfTransformer :=
  { t with weightPadding := wp }

/-- Model of `GetL2Normalization`. -/
def TfidfTransformer.GetL2Normalization (t : TfidfTransformer) : Nat :=
  t.l2Normalization

/-- Model of `SetL2Normalization` in state-passing style. -/
noncomputable def TfidfTransformer.SetL2Normalization (t : TfidfTransformer) (ln : Nat) :
    TfidfTransformer :=
  { t with l2Normalization := ln }

/-- Model of `Fit`: coerce the input to CSR when possible, then compute one
weight per term row — on the `*sparse.CSR` fast path via `RowNNZ`, otherwise
by the cell-scanning fallback loop — and replace the stored model with
`sparse.NewDIA(m, m, weights)`.  `Fit` returns the receiver, modelled by
returning the updated transformer state. -/
noncomputable def TfidfTransformer.Fit (t : TfidfTransformer) (matrix : GoMat) :
    TfidfTransformer :=
  match coerceCSR matrix with
  | .csr c =>
      { t with transform := some ⟨c.rows, (List.range c.rows).map fun i =>
          Real.log (((1 + c.cols : ℕ) : ℝ) / ((1 + c.RowNNZ i : ℕ) : ℝ)) + t.weightPadding⟩ }
  | m =>
      { t with transform := some ⟨m.rows, (List.range m.rows).map fun i =>
          Real.log (((1 + m.cols : ℕ) : ℝ) / ((1 + dfLoop m.At i m.cols : ℕ) : ℝ))
            + t.weightPadding⟩ }

/-- Contents of `product.Mul(t.transform, matrix)` for the diagonal left
factor: entry `(i, j)` of the product is the `i`-th diagonal weight times
entry `(i, j)` of `matrix`, in a fresh canonical CSR of shape
`d.size × matrix.cols`. -/
noncomputable def mulDIA (d : DIA) (M : GoMat) : CSR :=
  ⟨d.size, M.cols,
    (List.range d.size).map fun i =>
      (List.range M.cols).map fun j => d.weights.getD i 0 * M.At i j⟩

/-- Sum of squares of a row's entries (only non-zero entries contribute, so
this is also the sum computed by the loop over the stored segment). -/
noncomputable def sumSq (row : List ℝ) : ℝ :=
  (row.map fun x => x * x).sum

/-- Model of the body of the normalization loop for one row: sum the squares
of the row's entries; when the sum is `0.0`, `continue` (leave the row as it
is); otherwise divide every entry by the square root of the sum.  Dividing
every contents entry agrees with the code's division of the stored entries
only, because the remaining entries are zero. -/
noncomputable def normRow (row : List ℝ) : List ℝ :=
  if sumSq row = 0 then row else row.map fun x => x / Real.sqrt (sumSq row)

/-- Model of the normalization loop over `rawProduct.I` rows. -/
noncomputable def normalizeRows (m : CSR) : CSR :=
  ⟨m.rows, m.cols, m.data.map normRow⟩

/-- Outcome of a `Transform`-style call: a normal return carrying the result
matrix and the returned `error` value, or a runtime panic (from the `sparse`
library's `Mul`, which panics on dimension mismatch, or from a nil model). -/
inductive TransformResult where
  | ok (matrix : CSR) (err : Option String)
  | panic (msg : String)

/-- Model of `Transform`: coerce the input, multiply by the stored diagonal
model (panicking as the `sparse` library does when the model is nil or its
width differs from the input's row count), apply the selected normalization,
and return the product with a nil `error`. -/
noncomputable def TfidfTransformer.Transform (t : TfidfTransformer) (matrix : GoMat) :
    TransformResult :=
  let m := coerceCSR matrix
  match t.transform with
  | none => .panic "runtime error: invalid memory address or nil pointer dereference"
  | some d =>
      if d.size = m.rows then
        let product := mulDIA d m
        let product :=
          if t.l2Normalization ≠ NoL2Normalization then
            let p := if t.l2Normalization = ColBasedL2Normalization then
                product.transpose else product
            let p := normalizeRows p
            if t.l2Normalization = ColBasedL2Normalization then p.transpose else p
          else product
        .ok product none
      else .panic "mat: dimension mismatch"

/-- Model of `FitTransform`: coerce once, then `t.Fit(matrix).Transform(matrix)`;
the pair carries the final transformer state alongside the returned value. -/
noncomputable def TfidfTransformer.FitTransform (t : TfidfTransformer) (matrix : GoMat) :
    TfidfTransformer × TransformResult :=
  let m := coerceCSR matrix
  let t1 := t.Fit m
  (t1, t1.Transform m)

/-- A token of the binary model stream: the serialized `sparse.DIA` layout is
its dimension followed by the diagonal values in index order. -/
inductive StreamTok where
  | dim (n : Nat)
  | val (x : ℝ)

/-- Modelled from the spec: the persisted-model encoding produced by
`sparse.DIA.MarshalBinaryTo` (which lives in the external `sparse` package)
writes the model's dimension followed by its weight values in index order. -/
def encodeDIA (d : DIA) : List StreamTok :=
  .dim d.size :: d.weights.map .val

/-- Read exactly `n` value tokens from the stream, failing on truncation or
on a token of the wrong kind. -/
def readVals : Nat → List StreamTok → Option (List ℝ × List StreamTok)
  | 0, s => some ([], s)
  | n + 1, .val x :: s =>
      match readVals n s with
      | some (xs, rest) => some (x :: xs, rest)
      | none => none
  | _ + 1, _ => none

/-- Modelled from the spec: `sparse.DIA.UnmarshalBinaryFrom` (external
`sparse` package) reads a dimension and then that many weight values from the
head of the stream, and fails with a decode error on any malformed or
truncated stream. -/
def decodeDIA : List StreamTok → Except String DIA
  | .dim n :: rest =>
      match readVals n rest with
      | some (ws, _) => .ok ⟨n, ws⟩
      | none => .error "unexpected EOF"
  | _ => .error "malformed model stream"

/-- Model of `Save`: marshal the stored model into the output stream.  The
`none` outcome models the nil-pointer panic that `t.transform.MarshalBinaryTo`
hits when no model has been fit or loaded. -/
def TfidfTransformer.Save (t : TfidfTransformer) : Option (List StreamTok) :=
  match t.transform with
  | some d => some (encodeDIA d)
  | none => none

/-- Model of `Load`: decode a model from the stream into a fresh local; on a
decode error return the error with the receiver untouched, otherwise install
the decoded model as the new `transform`. -/
noncomputable def TfidfTransformer.Load (t : TfidfTransformer) (r : List StreamTok) :
    TfidfTransformer × Option String :=
  match decodeDIA r with
  | .error e => (t, some e)
  | .ok model => ({ t with transform := some model }, none)

/-- Column-wise L2 normalization stated directly from the specification's
words: every entry of a column whose sum of squares is non-zero is divided by
that column's L2 norm; entries of all-zero columns are untouched.  This is
the yardstick the code's transpose/normalize/transpose composition is
compared against. -/
noncomputable def colNormalizeSpec (m : CSR) : CSR :=
  ⟨m.rows, m.cols,
    (List.range m.rows).map fun i =>
      (List.range m.cols).map fun j =>
        if sumSq ((List.range m.rows).map fun k => m.At k j) = 0 then m.At i j
        else m.At i j / Real.sqrt (sumSq ((List.range m.rows).map fun k => m.At k j))⟩

/-- Getting an in-range element of a list built by mapping over `range`. -/
theorem getD_map_range {α : Type} (n j : Nat) (f : Nat → α) (d : α) (h : j < n) :
    ((List.range n).map f).getD j d = f j := by
  rw [List.getD_eq_getElem?_getD, List.getElem?_map, List.getElem?_range h]
  rfl

/-- Getting an element of a mapped list when the map fixes the default. -/
theorem getD_map_zero (f : ℝ → ℝ) (hf : f 0 = 0) (l : List ℝ) (j : Nat) :
    (l.map f).getD j 0 = f (l.getD j 0) := by
  rw [List.getD_eq_getElem?_getD, List.getD_eq_getElem?_getD, List.getElem?_map]
  cases l[j]? <;> simp [hf]

/-- Counting over the index range of a list agrees with counting over the
list itself. -/
theorem countP_range_getD (l : List ℝ) (p : ℝ → Bool) :
    (List.range l.length).countP (fun j => p (l.getD j 0)) = l.countP p := by
  induction l with
  | nil => simp
  | cons x xs ih =>
    rw [List.length_cons, List.range_succ_eq_map, List.countP_cons, List.countP_map,
      List.countP_cons]
    have h1 : (List.range xs.length).countP ((fun j => p ((x :: xs).getD j 0)) ∘ Nat.succ)
        = (List.range xs.length).countP (fun j => p (xs.getD j 0)) :=
      List.countP_congr fun j _ => by simp [Function.comp]
    rw [h1, ih]
    simp

/-- An accumulating conditional-increment fold counts the satisfied
elements. -/
theorem foldl_count {α : Type} (p : α → Bool) (l : List α) :
    l.foldl (fun df j => if p j then df + 1 else df) 0 = l.countP p := by
  suffices h : ∀ a, l.foldl (fun df j => if p j then df + 1 else df) a = a + l.countP p by
    simpa using h 0
  induction l with
  | nil => simp
  | cons x xs ih =>
    intro a
    by_cases hx : p x
    · simp only [List.foldl_cons, List.countP_cons, hx, if_pos]
      rw [ih]
      omega
    · simp only [List.foldl_cons, List.countP_cons, hx, if_neg, Bool.false_eq_true,
        not_false_eq_true]
      rw [ih]
      simp

/-- The fallback loop of `Fit` computes the specification's document
frequency. -/
theorem dfLoop_eq_countP (f : Nat → Nat → ℝ) (i n : Nat) :
    dfLoop f i n = (List.range n).countP fun j => decide (f i j ≠ 0) := by
  unfold dfLoop
  have h : (fun (df : Nat) (j : Nat) => if f i j ≠ 0 then df + 1 else df)
      = fun df j => if (fun j => decide (f i j ≠ 0)) j then df + 1 else df := by
    funext df j
    by_cases hj : f i j ≠ 0
    · simp [hj]
    · simp [hj]
  rw [h, foldl_count]

/-- On a well-formed CSR, `RowNNZ` of an in-range row counts the columns with
a non-zero entry in that row. -/
theorem RowNNZ_eq_countP (c : CSR) (hwf : c.Wf) (i : Nat) (hi : i < c.rows) :
    c.RowNNZ i = (List.range c.cols).countP fun j => decide (c.At i j ≠ 0) := by
  obtain ⟨hlen, hrow⟩ := hwf
  have hmem : c.data.getD i [] ∈ c.data := by
    rw [List.getD_eq_getElem?_getD]
    have hlt : i < c.data.length := by omega
    rw [List.getElem?_eq_getElem hlt]
    exact List.getElem_mem hlt
  have hl : (c.data.getD i []).length = c.cols := hrow _ hmem
  unfold CSR.RowNNZ CSR.At
  rw [← countP_range_getD, hl]

/-- `RowNNZ` of a CSR built from an entry function counts the non-zero
columns of that function's row. -/
theorem RowNNZ_csrOfFn (r n : Nat) (f : Nat → Nat → ℝ) (i : Nat) (hi : i < r) :
    (csrOfFn r n f).RowNNZ i = (List.range n).countP fun j => decide (f i j ≠ 0) := by
  unfold CSR.RowNNZ csrOfFn
  simp only
  rw [getD_map_range r i _ [] hi, List.countP_map]
  rfl

/-- A CSR built from an entry function is well-formed. -/
theorem csrOfFn_wf (r n : Nat) (f : Nat → Nat → ℝ) : (csrOfFn r n f).Wf := by
  constructor
  · simp [csrOfFn]
  · intro row hrow
    simp only [csrOfFn, List.mem_map] at hrow
    obtain ⟨i, _, rfl⟩ := hrow
    simp [csrOfFn]

/-- In-range element access of a CSR built from an entry function. -/
theorem At_csrOfFn (r n : Nat) (f : Nat → Nat → ℝ) (i j : Nat) (hi : i < r) (hj : j < n) :
    (csrOfFn r n f).At i j = f i j := by
  unfold CSR.At csrOfFn
  simp only
  rw [getD_map_range r i _ [] hi, getD_map_range n j _ 0 hj]

/-- Coercion to CSR preserves the row dimension. -/
theorem rows_coerceCSR (M : GoMat) : (coerceCSR M).rows = M.rows := by
  cases M <;> rfl

/-- Coercion to CSR preserves the column dimension. -/
theorem cols_coerceCSR (M : GoMat) : (coerceCSR M).cols = M.cols := by
  cases M <;> rfl

/-- Coercion to CSR preserves in-range contents. -/
theorem At_coerceCSR (M : GoMat) (i j : Nat) (hi : i < M.rows) (hj : j < M.cols) :
    (coerceCSR M).At i j = M.At i j := by
  cases M with
  | generic r c f => rfl
  | convertible r c f => exact At_csrOfFn _ _ _ _ _ hi hj
  | csr c => rfl

/-- Coercion to CSR yields a well-formed matrix. -/
theorem wf_coerceCSR (M : GoMat) (hwf : M.Wf) : (coerceCSR M).Wf := by
  cases M with
  | generic r c f => trivial
  | convertible r c f => exact csrOfFn_wf r c f
  | csr c => exact hwf

/-- Coercion to CSR is idempotent (for a `*sparse.CSR`, `ToCSR` returns the
receiver). -/
theorem coerceCSR_idem (M : GoMat) : coerceCSR (coerceCSR M) = coerceCSR M := by
  cases M <;> rfl

/-- Coercion to CSR preserves the specification's document frequency. -/
theorem df_coerceCSR (M : GoMat) (i : Nat) (hi : i < M.rows) :
    (coerceCSR M).df i = M.df i := by
  unfold GoMat.df
  rw [cols_coerceCSR]
  exact List.countP_congr fun j hj => by
    rw [At_coerceCSR M i j hi (List.mem_range.mp hj)]

/-- Concrete corpus from the specification's test scenario: 3 terms times 4
documents; term 0 occurs in all 4 documents, term 1 in 2, term 2 in none. -/
noncomputable def exCSR : CSR :=
  ⟨3, 4, [[1, 1, 1, 1], [1, 1, 0, 0], [0, 0, 0, 0]]⟩

/-- Characterization of the model stored by `Fit`: one weight per term row,
each the smoothed log-ratio of document count to document frequency, shifted
by the weight padding. -/
theorem fit_model_spec (t : TfidfTransformer) (M : GoMat) (hwf : M.Wf) :
    ∃ d : DIA, (t.Fit M).transform = some d ∧ d.size = M.rows ∧
      d.weights.length = M.rows ∧
      ∀ i, i < M.rows →
        d.weights.getD i 0 =
          Real.log ((1 + (M.cols : ℝ)) / (1 + (M.df i : ℝ))) + t.weightPadding := by
  cases M with
  | generic r n f =>
    refine ⟨⟨r, (List.range r).map fun i =>
        Real.log (((1 + n : ℕ) : ℝ) / ((1 + dfLoop f i n : ℕ) : ℝ)) + t.weightPadding⟩,
      rfl, rfl, by simp [GoMat.rows], ?_⟩
    intro i hi
    show ((List.range r).map fun i =>
        Real.log (((1 + n : ℕ) : ℝ) / ((1 + dfLoop f i n : ℕ) : ℝ)) + t.weightPadding).getD i 0
      = _
    rw [getD_map_range r i _ 0 hi]
    have hdf : dfLoop f i n = GoMat.df (.generic r n f) i := by
      rw [dfLoop_eq_countP]
      rfl
    rw [hdf]
    push_cast
    rfl
  | convertible r n f =>
    refine ⟨⟨r, (List.range r).map fun i =>
        Real.log (((1 + n : ℕ) : ℝ) / ((1 + (csrOfFn r n f).RowNNZ i : ℕ) : ℝ))
          + t.weightPadding⟩, rfl, rfl, by simp [GoMat.rows], ?_⟩
    intro i hi
    show ((List.range r).map fun i =>
        Real.log (((1 + n : ℕ) : ℝ) / ((1 + (csrOfFn r n f).RowNNZ i : ℕ) : ℝ))
          + t.weightPadding).getD i 0 = _
    rw [getD_map_range r i _ 0 hi]
    have hdf : (csrOfFn r n f).RowNNZ i = GoMat.df (.convertible r n f) i := by
      rw [RowNNZ_csrOfFn r n f i hi]
      rfl
    rw [hdf]
    push_cast
    rfl
  | csr c =>
    refine ⟨⟨c.rows, (List.range c.rows).map fun i =>
        Real.log (((1 + c.cols : ℕ) : ℝ) / ((1 + c.RowNNZ i : ℕ) : ℝ)) + t.weightPadding⟩,
      rfl, rfl, by simp [GoMat.rows], ?_⟩
    intro i hi
    show ((List.range c.rows).map fun i =>
        Real.log (((1 + c.cols : ℕ) : ℝ) / ((1 + c.RowNNZ i : ℕ) : ℝ))
          + t.weightPadding).getD i 0 = _
    rw [getD_map_range c.rows i _ 0 hi]
    have hdf : c.RowNNZ i = GoMat.df (.csr c) i := by
      rw [RowNNZ_eq_countP c hwf i hi]
      rfl
    rw [hdf]
    push_cast
    rfl

/-- C1: for every m-by-n term-document matrix, `Fit` produces an IDF weight
model of m weights where, for each term row i, `df_i` is the count of columns
with a non-zero entry in that row and the i-th weight equals
`ln((1+n)/(1+df_i)) + weight_padding`, the padding applied after the
logarithm. -/
theorem fit_weights (t : TfidfTransformer) (M : GoMat) (hwf : M.Wf) :
    ∃ d : DIA, (t.Fit M).transform = some d ∧ d.size = M.rows ∧
      d.weights.length = M.rows ∧
      ∀ i, i < M.rows →
        d.weights.getD i 0 =
          Real.log ((1 + (M.cols : ℝ)) / (1 + (M.df i : ℝ))) + t.weightPadding :=
  fit_model_spec t M hwf

/-- Witness for C1 at the specification's concrete 3-by-4 corpus. -/
theorem fit_weights_witness :
    GoMat.Wf (GoMat.csr exCSR) ∧
    ∃ d : DIA, (NewTfidfTransformer.Fit (GoMat.csr exCSR)).transform = some d ∧
      d.size = (GoMat.csr exCSR).rows ∧
      d.weights.length = (GoMat.csr exCSR).rows ∧
      ∀ i, i < (GoMat.csr exCSR).rows →
        d.weights.getD i 0 =
          Real.log ((1 + ((GoMat.csr exCSR).cols : ℝ))
              / (1 + ((GoMat.csr exCSR).df i : ℝ)))
            + NewTfidfTransformer.weightPadding :=
  ⟨by simp [GoMat.Wf, CSR.Wf, exCSR],
    fit_weights NewTfidfTransformer (GoMat.csr exCSR)
      (by simp [GoMat.Wf, CSR.Wf, exCSR])⟩

/-- `Fit` only replaces the stored model; the normalization mode is kept. -/
theorem fit_l2 (t : TfidfTransformer) (M : GoMat) :
    (t.Fit M).l2Normalization = t.l2Normalization := by
  unfold TfidfTransformer.Fit
  cases coerceCSR M <;> rfl

/-- `Fit` only replaces the stored model; the weight padding is kept. -/
theorem fit_weightPadding (t : TfidfTransformer) (M : GoMat) :
    (t.Fit M).weightPadding = t.weightPadding := by
  unfold TfidfTransformer.Fit
  cases coerceCSR M <;> rfl

/-- With a matching model and normalization off, `Transform` returns the
diagonal product with a nil error. -/
theorem transform_noNorm (t : TfidfTransformer) (M : GoMat) (d : DIA)
    (h : t.transform = some d) (hs : d.size = M.rows)
    (hn : t.l2Normalization = NoL2Normalization) :
    t.Transform M = .ok (mulDIA d (coerceCSR M)) none := by
  unfold TfidfTransformer.Transform
  rw [h]
  simp only [rows_coerceCSR, hs, if_pos, hn, ne_eq, not_true_eq_false, if_false]

/-- In-range contents of the diagonal product. -/
theorem At_mulDIA (d : DIA) (M : GoMat) (i j : Nat) (hi : i < d.size) (hj : j < M.cols) :
    (mulDIA d M).At i j = d.weights.getD i 0 * M.At i j := by
  unfold mulDIA CSR.At
  simp only
  rw [getD_map_range d.size i _ [] hi, getD_map_range M.cols j _ 0 hj]

/-- C2: for every m-by-n term-document matrix, calling `Fit` then `Transform`
on that same matrix with `weight_padding = 0` and normalization mode none
yields a result matrix of the same shape whose entry (i, j) equals
original(i, j) multiplied by `ln((1+n)/(1+df_i))`, where `df_i` is the
document frequency of term i. -/
theorem fit_then_transform_entries (t : TfidfTransformer) (M : GoMat) (hwf : M.Wf)
    (hpad : t.weightPadding = 0) (hnorm : t.l2Normalization = NoL2Normalization) :
    ∃ P : CSR, (t.Fit M).Transform M = .ok P none ∧ P.rows = M.rows ∧ P.cols = M.cols ∧
      ∀ i, i < M.rows → ∀ j, j < M.cols →
        P.At i j = M.At i j * Real.log ((1 + (M.cols : ℝ)) / (1 + (M.df i : ℝ))) := by
  obtain ⟨d, hd, hsize, hlen, hw⟩ := fit_model_spec t M hwf
  refine ⟨mulDIA d (coerceCSR M), ?_, ?_, ?_, ?_⟩
  · exact transform_noNorm (t.Fit M) M d hd hsize
      ((fit_l2 t M).trans hnorm)
  · show d.size = M.rows
    exact hsize
  · show (coerceCSR M).cols = M.cols
    exact cols_coerceCSR M
  · intro i hi j hj
    rw [At_mulDIA d (coerceCSR M) i j (by rw [hsize]; exact hi)
        (by rw [cols_coerceCSR]; exact hj),
      At_coerceCSR M i j hi hj, hw i hi, hpad, add_zero, mul_comm]

/-- Witness for C2 at the specification's concrete 3-by-4 corpus. -/
theorem fit_then_transform_entries_witness :
    GoMat.Wf (GoMat.csr exCSR) ∧ NewTfidfTransformer.weightPadding = 0 ∧
    NewTfidfTransformer.l2Normalization = NoL2Normalization ∧
    ∃ P : CSR, (NewTfidfTransformer.Fit (GoMat.csr exCSR)).Transform (GoMat.csr exCSR)
        = .ok P none ∧
      P.rows = (GoMat.csr exCSR).rows ∧ P.cols = (GoMat.csr exCSR).cols ∧
      ∀ i, i < (GoMat.csr exCSR).rows → ∀ j, j < (GoMat.csr exCSR).cols →
        P.At i j = (GoMat.csr exCSR).At i j *
          Real.log ((1 + ((GoMat.csr exCSR).cols : ℝ))
            / (1 + ((GoMat.csr exCSR).df i : ℝ))) :=
  ⟨by simp [GoMat.Wf, CSR.Wf, exCSR], rfl, rfl,
    fit_then_transform_entries NewTfidfTransformer (GoMat.csr exCSR)
      (by simp [GoMat.Wf, CSR.Wf, exCSR]) rfl rfl⟩

/-- A transformer fitted with a 2-term model, used against a 3-row input. -/
noncomputable def exMismatchT : TfidfTransformer :=
  ⟨some ⟨2, [0, 0]⟩, 0, NoL2Normalization⟩

/-- A 3-by-1 generic input whose row count disagrees with `exMismatchT`. -/
noncomputable def exMismatchM : GoMat :=
  .generic 3 1 fun _ _ => 1

/-- C3 counterexample: at a concrete fitted model of size 2 and a 3-row
input, `Transform` panics with the dimension-mismatch error and in particular
never reaches a normal return, so the mismatch is not surfaced through the
returned error result. -/
theorem transform_mismatch_counterexample :
    exMismatchT.Transform exMismatchM = .panic "mat: dimension mismatch" ∧
    ∀ P : CSR, ∀ e : Option String, exMismatchT.Transform exMismatchM ≠ .ok P e := by
  have h : exMismatchT.Transform exMismatchM = .panic "mat: dimension mismatch" := by
    unfold TfidfTransformer.Transform exMismatchT exMismatchM
    simp [coerceCSR, GoMat.rows]
  refine ⟨h, ?_⟩
  intro P e hcontra
  rw [h] at hcontra
  exact TransformResult.noConfusion hcontra

/-- C3 amended: for every input matrix whose term-row count disagrees with
the fitted IDF model's size, `Transform` panics with the `sparse` library's
dimension-mismatch error — the panic propagates to the caller, but the
mismatch is never delivered through `Transform`'s error result (which is nil
on every normal return). -/
theorem transform_mismatch_panics (t : TfidfTransformer) (M : GoMat) (d : DIA)
    (h : t.transform = some d) (hm : d.size ≠ M.rows) :
    t.Transform M = .panic "mat: dimension mismatch" ∧
    ∀ P : CSR, ∀ e : String, t.Transform M ≠ .ok P (some e) := by
  have hm2 : ¬ d.size = (coerceCSR M).rows := by
    rw [rows_coerceCSR]
    exact hm
  have heq : t.Transform M = .panic "mat: dimension mismatch" := by
    unfold TfidfTransformer.Transform
    rw [h]
    simp only [hm2, if_false]
  refine ⟨heq, ?_⟩
  intro P e hcontra
  rw [heq] at hcontra
  exact TransformResult.noConfusion hcontra

/-- Witness for the amended C3 at the concrete mismatched pair. -/
theorem transform_mismatch_panics_witness :
    exMismatchT.transform = some ⟨2, [0, 0]⟩ ∧
    (2 : Nat) ≠ exMismatchM.rows ∧
    (exMismatchT.Transform exMismatchM = .panic "mat: dimension mismatch" ∧
      ∀ P : CSR, ∀ e : String, exMismatchT.Transform exMismatchM ≠ .ok P (some e)) :=
  ⟨rfl, by simp [exMismatchM, GoMat.rows],
    transform_mismatch_panics exMismatchT exMismatchM ⟨2, [0, 0]⟩ rfl
      (by simp [exMismatchM, GoMat.rows])⟩

/-- A sum of squares is non-negative. -/
theorem sumSq_nonneg (l : List ℝ) : 0 ≤ sumSq l := by
  apply List.sum_nonneg
  intro x hx
  simp only [List.mem_map] at hx
  obtain ⟨y, _, rfl⟩ := hx
  exact mul_self_nonneg y

/-- Unfolding a sum of squares over a cons cell. -/
theorem sumSq_cons (x : ℝ) (l : List ℝ) : sumSq (x :: l) = x * x + sumSq l := by
  simp [sumSq]

/-- Dividing every entry by a constant divides the sum of squares by its
square. -/
theorem sumSq_map_div (r : List ℝ) (c : ℝ) :
    sumSq (r.map fun x => x / c) = sumSq r / (c * c) := by
  induction r with
  | nil => simp [sumSq]
  | cons x xs ih =>
    rw [List.map_cons, sumSq_cons, sumSq_cons, ih]
    ring

/-- On a row with non-zero sum of squares, the normalization divides every
entry by the row's L2 norm. -/
theorem normRow_of_ne (row : List ℝ) (h : sumSq row ≠ 0) :
    normRow row = row.map fun x => x / Real.sqrt (sumSq row) := by
  unfold normRow
  rw [if_neg h]

/-- On a row with zero sum of squares, the normalization leaves the row
unmodified. -/
theorem normRow_of_eq (row : List ℝ) (h : sumSq row = 0) : normRow row = row := by
  unfold normRow
  rw [if_pos h]

/-- A normalized row with non-zero sum of squares has sum of squares one. -/
theorem sumSq_normRow_of_ne (row : List ℝ) (h : sumSq row ≠ 0) :
    sumSq (normRow row) = 1 := by
  rw [normRow_of_ne row h, sumSq_map_div,
    Real.mul_self_sqrt (sumSq_nonneg row), div_self h]

/-- The normalization fixes the empty row. -/
theorem normRow_nil : normRow [] = [] := by
  unfold normRow
  rw [if_pos]
  simp [sumSq]

/-- Getting an element of a mapped list when the map fixes the default
value. -/
theorem getD_map_fixed {α β : Type} (f : α → β) (da : α) (db : β) (hf : f da = db)
    (l : List α) (j : Nat) : (l.map f).getD j db = f (l.getD j da) := by
  rw [List.getD_eq_getElem?_getD, List.getD_eq_getElem?_getD, List.getElem?_map]
  cases l[j]? <;> simp [hf]

/-- With a matching model and row-mode normalization selected, `Transform`
returns the row-normalized diagonal product with a nil error. -/
theorem transform_rowNorm (t : TfidfTransformer) (M : GoMat) (d : DIA)
    (h : t.transform = some d) (hs : d.size = M.rows)
    (hn : t.l2Normalization = RowBasedL2Normalization) :
    t.Transform M = .ok (normalizeRows (mulDIA d (coerceCSR M))) none := by
  have hs2 : d.size = (coerceCSR M).rows := by
    rw [rows_coerceCSR]
    exact hs
  unfold TfidfTransformer.Transform
  rw [h]
  simp [hs2, hn, RowBasedL2Normalization, NoL2Normalization, ColBasedL2Normalization]

/-- With a matching model and column-mode normalization selected, `Transform`
transposes, row-normalizes and transposes back, returning the result with a
nil error. -/
theorem transform_colNorm (t : TfidfTransformer) (M : GoMat) (d : DIA)
    (h : t.transform = some d) (hs : d.size = M.rows)
    (hn : t.l2Normalization = ColBasedL2Normalization) :
    t.Transform M
      = .ok ((normalizeRows ((mulDIA d (coerceCSR M)).transpose)).transpose) none := by
  have hs2 : d.size = (coerceCSR M).rows := by
    rw [rows_coerceCSR]
    exact hs
  unfold TfidfTransformer.Transform
  rw [h]
  simp [hs2, hn, RowBasedL2Normalization, NoL2Normalization, ColBasedL2Normalization]

/-- C4: under row-mode L2 normalization, `Transform` returns the row-wise
normalization of the weighted result, where every row whose sum of squares is
non-zero is divided entrywise by its L2 norm — making its sum of squares
exactly one — and every row whose sum of squares is exactly zero is left
unmodified. -/
theorem transform_row_normalization (t : TfidfTransformer) (M : GoMat) (d : DIA)
    (h : t.transform = some d) (hs : d.size = M.rows)
    (hn : t.l2Normalization = RowBasedL2Normalization) :
    t.Transform M = .ok (normalizeRows (mulDIA d (coerceCSR M))) none ∧
    (normalizeRows (mulDIA d (coerceCSR M))).data
      = (mulDIA d (coerceCSR M)).data.map normRow ∧
    ∀ row ∈ (mulDIA d (coerceCSR M)).data,
      (sumSq row ≠ 0 →
        normRow row = (row.map fun x => x / Real.sqrt (sumSq row)) ∧
        sumSq (normRow row) = 1) ∧
      (sumSq row = 0 → normRow row = row) := by
  refine ⟨transform_rowNorm t M d h hs hn, rfl, ?_⟩
  intro row _
  constructor
  · intro hnz
    exact ⟨normRow_of_ne row hnz, sumSq_normRow_of_ne row hnz⟩
  · intro hz
    exact normRow_of_eq row hz

/-- A transformer with a 3-weight model and row-mode normalization. -/
noncomputable def exRowT : TfidfTransformer :=
  ⟨some ⟨3, [1, 1, 1]⟩, 0, RowBasedL2Normalization⟩

/-- Witness for C4 at the concrete 3-by-4 corpus. -/
theorem transform_row_normalization_witness :
    exRowT.transform = some ⟨3, [1, 1, 1]⟩ ∧
    (DIA.mk 3 [1, 1, 1]).size = (GoMat.csr exCSR).rows ∧
    exRowT.l2Normalization = RowBasedL2Normalization ∧
    (exRowT.Transform (GoMat.csr exCSR)
        = .ok (normalizeRows (mulDIA ⟨3, [1, 1, 1]⟩ (coerceCSR (GoMat.csr exCSR)))) none ∧
      (normalizeRows (mulDIA ⟨3, [1, 1, 1]⟩ (coerceCSR (GoMat.csr exCSR)))).data
        = (mulDIA ⟨3, [1, 1, 1]⟩ (coerceCSR (GoMat.csr exCSR))).data.map normRow ∧
      ∀ row ∈ (mulDIA ⟨3, [1, 1, 1]⟩ (coerceCSR (GoMat.csr exCSR))).data,
        (sumSq row ≠ 0 →
          normRow row = (row.map fun x => x / Real.sqrt (sumSq row)) ∧
          sumSq (normRow row) = 1) ∧
        (sumSq row = 0 → normRow row = row)) :=
  ⟨rfl, rfl, rfl,
    transform_row_normalization exRowT (GoMat.csr exCSR) ⟨3, [1, 1, 1]⟩ rfl rfl rfl⟩

/-- The code's transpose / row-normalize / transpose-back composition
computes exactly the direct column-wise L2 normalization. -/
theorem transpose_normalize_transpose (W : CSR) :
    (normalizeRows W.transpose).transpose = colNormalizeSpec W := by
  unfold colNormalizeSpec CSR.transpose normalizeRows
  simp only
  congr 1
  apply List.map_congr_left
  intro i hi
  apply List.map_congr_left
  intro j hj
  rw [List.mem_range] at hi hj
  change ((((List.range W.cols).map fun j =>
      (List.range W.rows).map fun i => W.At i j).map normRow).getD j []).getD i 0 = _
  rw [getD_map_fixed normRow [] [] normRow_nil _ j,
    getD_map_range W.cols j _ [] hj]
  by_cases hz : sumSq ((List.range W.rows).map fun k => W.At k j) = 0
  · rw [normRow_of_eq _ hz, if_pos hz, getD_map_range W.rows i _ 0 hi]
  · rw [normRow_of_ne _ hz, if_neg hz,
      getD_map_zero
        (fun x => x / Real.sqrt (sumSq ((List.range W.rows).map fun k => W.At k j)))
        (zero_div _) _ i,
      getD_map_range W.rows i _ 0 hi]

/-- C5: with column-mode normalization selected, `Transform` returns the
transpose of the row-mode normalization of the transposed weighted result,
and that composition equals direct column-wise L2 normalization of the
weighted result. -/
theorem transform_col_normalization (t : TfidfTransformer) (M : GoMat) (d : DIA)
    (h : t.transform = some d) (hs : d.size = M.rows)
    (hn : t.l2Normalization = ColBasedL2Normalization) :
    t.Transform M
      = .ok ((normalizeRows ((mulDIA d (coerceCSR M)).transpose)).transpose) none ∧
    (normalizeRows ((mulDIA d (coerceCSR M)).transpose)).transpose
      = colNormalizeSpec (mulDIA d (coerceCSR M)) :=
  ⟨transform_colNorm t M d h hs hn,
    transpose_normalize_transpose (mulDIA d (coerceCSR M))⟩

/-- A transformer with a 3-weight model and column-mode normalization. -/
noncomputable def exColT : TfidfTransformer :=
  ⟨some ⟨3, [1, 1, 1]⟩, 0, ColBasedL2Normalization⟩

/-- Witness for C5 at the concrete 3-by-4 corpus. -/
theorem transform_col_normalization_witness :
    exColT.transform = some ⟨3, [1, 1, 1]⟩ ∧
    (DIA.mk 3 [1, 1, 1]).size = (GoMat.csr exCSR).rows ∧
    exColT.l2Normalization = ColBasedL2Normalization ∧
    (exColT.Transform (GoMat.csr exCSR)
        = .ok ((normalizeRows ((mulDIA ⟨3, [1, 1, 1]⟩
            (coerceCSR (GoMat.csr exCSR))).transpose)).transpose) none ∧
      (normalizeRows ((mulDIA ⟨3, [1, 1, 1]⟩
          (coerceCSR (GoMat.csr exCSR))).transpose)).transpose
        = colNormalizeSpec (mulDIA ⟨3, [1, 1, 1]⟩ (coerceCSR (GoMat.csr exCSR)))) :=
  ⟨rfl, rfl, rfl,
    transform_col_normalization exColT (GoMat.csr exCSR) ⟨3, [1, 1, 1]⟩ rfl rfl rfl⟩

/-- C6: for every pair of matrices with identical contents (same dimensions
and same cell values), the `*sparse.CSR` fast path of `Fit` using the O(1)
per-row non-zero count and the fallback path scanning every cell produce
identical IDF weights — and hence identical fitted transformer states. -/
theorem fit_fast_slow_agree (t : TfidfTransformer) (c : CSR) (f : Nat → Nat → ℝ)
    (hwf : c.Wf)
    (he : ∀ i, i < c.rows → ∀ j, j < c.cols → c.At i j = f i j) :
    t.Fit (GoMat.csr c) = t.Fit (GoMat.generic c.rows c.cols f) := by
  show ({ t with transform := some ⟨c.rows, (List.range c.rows).map fun i =>
      Real.log (((1 + c.cols : ℕ) : ℝ) / ((1 + c.RowNNZ i : ℕ) : ℝ)) + t.weightPadding⟩ }
    : TfidfTransformer)
    = { t with transform := some ⟨c.rows, (List.range c.rows).map fun i =>
      Real.log (((1 + c.cols : ℕ) : ℝ) / ((1 + dfLoop f i c.cols : ℕ) : ℝ))
        + t.weightPadding⟩ }
  have hW : ∀ i ∈ List.range c.rows,
      Real.log (((1 + c.cols : ℕ) : ℝ) / ((1 + c.RowNNZ i : ℕ) : ℝ)) + t.weightPadding
      = Real.log (((1 + c.cols : ℕ) : ℝ) / ((1 + dfLoop f i c.cols : ℕ) : ℝ))
        + t.weightPadding := by
    intro i hi
    rw [List.mem_range] at hi
    have hcount : c.RowNNZ i = dfLoop f i c.cols := by
      rw [RowNNZ_eq_countP c hwf i hi, dfLoop_eq_countP]
      apply List.countP_congr
      intro j hj
      rw [List.mem_range] at hj
      rw [he i hi j hj]
    rw [hcount]
  rw [List.map_congr_left hW]

/-- Witness for C6 at the concrete 3-by-4 corpus against a function-backed
matrix with the same cells. -/
theorem fit_fast_slow_agree_witness :
    exCSR.Wf ∧
    (∀ i, i < exCSR.rows → ∀ j, j < exCSR.cols → exCSR.At i j = exCSR.At i j) ∧
    NewTfidfTransformer.Fit (GoMat.csr exCSR)
      = NewTfidfTransformer.Fit (GoMat.generic exCSR.rows exCSR.cols exCSR.At) :=
  ⟨by simp [CSR.Wf, exCSR], fun i _ j _ => rfl,
    fit_fast_slow_agree NewTfidfTransformer exCSR exCSR.At
      (by simp [CSR.Wf, exCSR]) (fun i _ j _ => rfl)⟩

/-- `Fit` applied to an already-coerced matrix fits the same model, because
the coercion is idempotent. -/
theorem fit_coerce (t : TfidfTransformer) (M : GoMat) :
    t.Fit (coerceCSR M) = t.Fit M := by
  unfold TfidfTransformer.Fit
  rw [coerceCSR_idem]

/-- `Transform` applied to an already-coerced matrix returns the same result,
because the coercion is idempotent. -/
theorem transform_coerce (t : TfidfTransformer) (M : GoMat) :
    t.Transform (coerceCSR M) = t.Transform M := by
  unfold TfidfTransformer.Transform
  rw [coerceCSR_idem]

/-- C7: for every input matrix and every configuration, `FitTransform`
produces exactly the result of calling `Fit` on the matrix followed by
`Transform` on the same matrix, and leaves the transformer in the same final
model state. -/
theorem fitTransform_eq_fit_then_transform (t : TfidfTransformer) (M : GoMat) :
    t.FitTransform M = (t.Fit M, (t.Fit M).Transform M) := by
  show (t.Fit (coerceCSR M), (t.Fit (coerceCSR M)).Transform (coerceCSR M))
    = (t.Fit M, (t.Fit M).Transform M)
  rw [fit_coerce, transform_coerce]

/-- Reading back exactly the values written for a model's weights. -/
theorem readVals_map (ws : List ℝ) (rest : List StreamTok) :
    readVals ws.length (ws.map StreamTok.val ++ rest) = some (ws, rest) := by
  induction ws with
  | nil => rfl
  | cons x xs ih => simp [readVals, ih]

/-- Decoding inverts encoding on any dimension-consistent model. -/
theorem decode_encode (d : DIA) (hw : d.weights.length = d.size) :
    decodeDIA (encodeDIA d) = .ok d := by
  have h := readVals_map d.weights []
  rw [List.append_nil, hw] at h
  simp only [encodeDIA, decodeDIA, h]

/-- C8: for every fitted IDF weight model, `Save` followed by `Load` over the
produced byte stream reproduces a model with identical dimension and
identical weight values, fully replacing any prior model held by the loading
transformer. -/
theorem save_load_roundtrip (t t2 : TfidfTransformer) (d : DIA)
    (h : t.transform = some d) (hw : d.weights.length = d.size) :
    t.Save = some (encodeDIA d) ∧
    decodeDIA (encodeDIA d) = .ok d ∧
    t2.Load (encodeDIA d) = ({ t2 with transform := some d }, none) := by
  have hde := decode_encode d hw
  refine ⟨?_, hde, ?_⟩
  · unfold TfidfTransformer.Save
    rw [h]
  · unfold TfidfTransformer.Load
    rw [hde]

/-- A transformer holding a 2-weight model to be saved. -/
noncomputable def exSaveT : TfidfTransformer :=
  ⟨some ⟨2, [0, 1]⟩, 0, NoL2Normalization⟩

/-- Witness for C8: saving the concrete 2-weight model and loading the stream
into a fresh transformer installs an identical model. -/
theorem save_load_roundtrip_witness :
    exSaveT.transform = some ⟨2, [0, 1]⟩ ∧
    (DIA.mk 2 [0, 1]).weights.length = (DIA.mk 2 [0, 1]).size ∧
    (exSaveT.Save = some (encodeDIA ⟨2, [0, 1]⟩) ∧
      decodeDIA (encodeDIA ⟨2, [0, 1]⟩) = .ok ⟨2, [0, 1]⟩ ∧
      NewTfidfTransformer.Load (encodeDIA ⟨2, [0, 1]⟩)
        = ({ NewTfidfTransformer with transform := some ⟨2, [0, 1]⟩ }, none)) :=
  ⟨rfl, rfl,
    save_load_roundtrip exSaveT NewTfidfTransformer ⟨2, [0, 1]⟩ rfl rfl⟩

/-- C10: when deserialization of the input stream fails, `Load` returns the
decode error and leaves the transformer's previously stored model unchanged;
a model is installed only on successful decode. -/
theorem load_error_keeps_model (t : TfidfTransformer) (s : List StreamTok) (e : String)
    (h : decodeDIA s = .error e) :
    t.Load s = (t, some e) := by
  unfold TfidfTransformer.Load
  rw [h]

/-- Witness for C10: loading a malformed stream into a transformer holding a
model returns the decode error and keeps the transformer unchanged. -/
theorem load_error_keeps_model_witness :
    decodeDIA [StreamTok.val 1] = .error "malformed model stream" ∧
    exSaveT.Load [StreamTok.val 1] = (exSaveT, some "malformed model stream") :=
  ⟨rfl, load_error_keeps_model exSaveT [StreamTok.val 1] "malformed model stream" rfl⟩

end Nlp
